import Mathlib

/-!
Verification of the PhotoImporter import pipeline (src/PhotoImporter.py).

The embedding models:
* directory paths as lists of path components (`FPath`), with the filesystem's
  directory set as a `List FPath`; `os.mkdir` fails when the parent directory is
  missing or the target already exists, and `os.listdir` lists the entry names
  directly under a directory;
* Python string containment (`a in b`) as `strSub`, decimal formatting
  (`f"{n:02d}"`, `strftime`) as `pad2` / `natStr`;
* `PhotoImporter.validate` as `validate`, returning the first failing check's
  error in an `Except`;
* `PhotoImporter._mkdirs` as `mkdirsEdited` / `mkdirsJpeg` / `mkdirsRaw`
  composed into `mkdirs`, over the record `RState` of the importer's fields;
* `PhotoImporter._getFileNames` as `getFileNames` over a directory tree
  (`DTree`) with `os.walk` modelled by `walk`;
* `PhotoImporterWorker.getFileHash` as `getFileHash`: streaming a file's bytes
  in 1 MiB chunks through an incremental SHA-256 context (`shaUpdate` models
  `hashlib`'s `update`, which absorbs bytes; `sha256Bytes` is the full SHA-256
  of a byte stream, implemented from the FIPS 180-4 specification);
* `PhotoImporterWorker.run` as `runFile` / `runBatch`, emitting the trace of
  Qt signals (`Ev`) and transforming a file store (`WFS`); a `corrupt`
  parameter models possible corruption of the bytes landing at the
  destination between copy and verify (identity = perfect copy);
* the coordinator's operation counting (`_importPhotos` lines 154-159) as
  `importRun`, which runs the JPEG batch then the RAW batch.
-/

/-! ## Python string containment (`in`) -/

/-- `pfxOf a b`: the char list `a` starts the char list `b`. -/
def pfxOf : List Char → List Char → Bool
  | [], _ => true
  | _ :: _, [] => false
  | a :: as, b :: bs => a = b && pfxOf as bs

/-- `subOf a b`: the char list `a` occurs contiguously inside `b`
(Python's `a in b` on strings). -/
def subOf : List Char → List Char → Bool
  | ns, [] => ns.isEmpty
  | ns, h :: t => pfxOf ns (h :: t) || subOf ns t

/-- Python's substring test `a in b`. -/
def strSub (a b : String) : Bool := subOf a.data b.data

theorem pfxOf_length_le {a b : List Char} (h : pfxOf a b = true) : a.length ≤ b.length := by
  induction a generalizing b with
  | nil => simp
  | cons x xs ih =>
    cases b with
    | nil => simp [pfxOf] at h
    | cons y ys =>
      simp only [pfxOf, Bool.and_eq_true] at h
      simpa using Nat.succ_le_succ (ih h.2)

theorem subOf_length_le {a b : List Char} (h : subOf a b = true) : a.length ≤ b.length := by
  induction b with
  | nil =>
    simp only [subOf, List.isEmpty_iff] at h
    simp [h]
  | cons y ys ih =>
    simp only [subOf, Bool.or_eq_true] at h
    rcases h with h | h
    · exact pfxOf_length_le h
    · exact Nat.le_trans (ih h) (Nat.le_succ _)

theorem strSub_length_le {a b : String} (h : strSub a b = true) : a.length ≤ b.length :=
  subOf_length_le h

/-! ## Decimal formatting (`strftime`, `f"{n:02d}"`) -/

/-- Decimal digit character. -/
def digitChar (n : Nat) : Char := Char.ofNat (48 + n)

/-- Decimal digits of `n`, most significant first; `fuel` bounds the recursion
(any `fuel > n` is exact). -/
def natDigitsAux : Nat → Nat → List Char
  | 0, _ => []
  | fuel+1, n => if n < 10 then [digitChar n] else natDigitsAux fuel (n / 10) ++ [digitChar (n % 10)]

/-- Decimal representation of a natural number (Python's `str`/`%d`). -/
def natStr (n : Nat) : String := ⟨natDigitsAux (n+1) n⟩

/-- Python's `f"{n:02d}"`: decimal, left-padded with `0` to width 2. -/
def pad2 (n : Nat) : String := if n < 10 then "0" ++ natStr n else natStr n

theorem natDigitsAux_lt_pow {fuel n : Nat} (h : n < fuel) :
    n < 10 ^ (natDigitsAux fuel n).length := by
  induction fuel generalizing n with
  | zero => omega
  | succ fuel ih =>
    by_cases h10 : n < 10
    · simp only [natDigitsAux, h10, if_true, List.length_singleton, pow_one]
    · have hdiv : n / 10 < fuel := by omega
      have hlen := ih hdiv
      have hdef : natDigitsAux (fuel+1) n = natDigitsAux fuel (n / 10) ++ [digitChar (n % 10)] := by
        simp [natDigitsAux, h10]
      rw [hdef, List.length_append, List.length_singleton]
      have h2 : n < 10 * (10 ^ (natDigitsAux fuel (n / 10)).length) := by
        have hn : n = 10 * (n / 10) + n % 10 := (Nat.div_add_mod n 10).symm ▸ by ring
        have hmod : n % 10 < 10 := Nat.mod_lt _ (by omega)
        omega
      have h3 : 10 * 10 ^ (natDigitsAux fuel (n / 10)).length =
          10 ^ ((natDigitsAux fuel (n / 10)).length + 1) := by ring
      omega

theorem lt_pow_natStr_length (n : Nat) : n < 10 ^ (natStr n).length :=
  natDigitsAux_lt_pow (Nat.lt_succ_self n)

theorem natStr_length_le_pad2_length (n : Nat) : (natStr n).length ≤ (pad2 n).length := by
  unfold pad2
  split
  · rw [String.length_append]
    omega
  · exact Nat.le_refl _

theorem lt_pow_pad2_length (n : Nat) : n < 10 ^ (pad2 n).length :=
  Nat.lt_of_lt_of_le (lt_pow_natStr_length n)
    (Nat.pow_le_pow_right (by omega) (natStr_length_le_pad2_length n))

/-! ## Filesystem primitives -/

/-- A directory path, as the list of its components. -/
abbrev FPath := List String

/-- `constants.CAMERA_FOLDER_NAME`. -/
def cameraFolderName : String := "DCIM"

/-- `os.path.exists` / `os.path.isdir` over the set of existing directories. -/
def pathExists (fs : List FPath) (p : FPath) : Bool := decide (p ∈ fs)

/-- `os.listdir p`: names of the entries directly under `p`. -/
def listdir (fs : List FPath) (p : FPath) : List String :=
  fs.filterMap (fun d => if d.dropLast = p ∧ d ≠ [] then some (d.getLastD "") else none)

/-- `os.mkdir p`: creates exactly one directory; raises if the parent is
missing (`FileNotFoundError`) or the target exists (`FileExistsError`). -/
def mkdir (fs : List FPath) (p : FPath) : Except Unit (List FPath) :=
  if p.dropLast ∈ fs ∧ p ∉ fs then .ok (fs ++ [p]) else .error ()

/-! ## Validation (`PhotoImporter.validate`) -/

/-- The distinct user-facing validation errors. -/
inductive VErr where
  | notCamera (root : FPath)
  | dirMissing (d : FPath)
  | editedEqRaw
  | editedEqJpeg
  | notUnique
deriving DecidableEq

/-- `PhotoImporter.validate`: the sequence of checks, stopping at the first
failure. `jpegDir`/`rawDir` are `none` when not supplied (Python `None`). -/
def validate (fs : List FPath) (sdCardRoot editedDir : FPath) (jpegDir rawDir : Option FPath) :
    Except VErr Unit :=
  if (sdCardRoot ++ [cameraFolderName]) ∉ fs then .error (.notCamera sdCardRoot)
  else if editedDir ∉ fs then .error (.dirMissing editedDir)
  else if jpegDir.isSome = true ∧ (jpegDir.getD []) ∉ fs then .error (.dirMissing (jpegDir.getD []))
  else if rawDir.isSome = true ∧ (rawDir.getD []) ∉ fs then .error (.dirMissing (rawDir.getD []))
  else if jpegDir = none ∧ rawDir = some editedDir then .error .editedEqRaw
  else if rawDir = none ∧ jpegDir = some editedDir then .error .editedEqJpeg
  else if some editedDir = jpegDir ∨ some editedDir = rawDir ∨ jpegDir = rawDir then
    .error .notUnique
  else .ok ()

/-- §6 precondition 1: the camera-media marker folder is present under the root. -/
def precond1 (fs : List FPath) (sdCardRoot : FPath) : Prop :=
  (sdCardRoot ++ [cameraFolderName]) ∈ fs

/-- §6 precondition 2: the edited directory exists. -/
def precond2 (fs : List FPath) (editedDir : FPath) : Prop := editedDir ∈ fs

/-- §6 precondition 3: the JPEG directory exists when supplied. -/
def precond3 (fs : List FPath) (jpegDir : Option FPath) : Prop :=
  ∀ j, jpegDir = some j → j ∈ fs

/-- §6 precondition 4: the RAW directory exists when supplied. -/
def precond4 (fs : List FPath) (rawDir : Option FPath) : Prop :=
  ∀ r, rawDir = some r → r ∈ fs

/-- §6 precondition 5: when the JPEG directory is absent, the edited and RAW
directories differ. -/
def precond5 (editedDir : FPath) (jpegDir rawDir : Option FPath) : Prop :=
  jpegDir = none → rawDir ≠ some editedDir

/-- §6 precondition 6: when the RAW directory is absent, the edited and JPEG
directories differ. -/
def precond6 (editedDir : FPath) (jpegDir rawDir : Option FPath) : Prop :=
  rawDir = none → jpegDir ≠ some editedDir

/-- §6 precondition 7: edited, JPEG and RAW directories pairwise distinct,
treating an absent optional directory as the placeholder `none`. -/
def precond7 (editedDir : FPath) (jpegDir rawDir : Option FPath) : Prop :=
  some editedDir ≠ jpegDir ∧ some editedDir ≠ rawDir ∧ jpegDir ≠ rawDir

/-- C1: `validate` accepts iff all seven §6 preconditions hold; the checks run
in the listed order and the first failing check raises that check's specific
error, with no later check deciding the outcome. -/
theorem validate_first_failure_spec (fs : List FPath) (sdCardRoot editedDir : FPath)
    (jpegDir rawDir : Option FPath) :
    (validate fs sdCardRoot editedDir jpegDir rawDir = .ok () ↔
      (precond1 fs sdCardRoot ∧ precond2 fs editedDir ∧ precond3 fs jpegDir ∧
       precond4 fs rawDir ∧ precond5 editedDir jpegDir rawDir ∧
       precond6 editedDir jpegDir rawDir ∧ precond7 editedDir jpegDir rawDir))
    ∧ (¬ precond1 fs sdCardRoot →
        validate fs sdCardRoot editedDir jpegDir rawDir = .error (.notCamera sdCardRoot))
    ∧ (precond1 fs sdCardRoot → ¬ precond2 fs editedDir →
        validate fs sdCardRoot editedDir jpegDir rawDir = .error (.dirMissing editedDir))
    ∧ (∀ j, jpegDir = some j → precond1 fs sdCardRoot → precond2 fs editedDir →
        ¬ precond3 fs jpegDir →
        validate fs sdCardRoot editedDir jpegDir rawDir = .error (.dirMissing j))
    ∧ (∀ r, rawDir = some r → precond1 fs sdCardRoot → precond2 fs editedDir →
        precond3 fs jpegDir → ¬ precond4 fs rawDir →
        validate fs sdCardRoot editedDir jpegDir rawDir = .error (.dirMissing r))
    ∧ (precond1 fs sdCardRoot → precond2 fs editedDir → precond3 fs jpegDir →
        precond4 fs rawDir → ¬ precond5 editedDir jpegDir rawDir →
        validate fs sdCardRoot editedDir jpegDir rawDir = .error .editedEqRaw)
    ∧ (precond1 fs sdCardRoot → precond2 fs editedDir → precond3 fs jpegDir →
        precond4 fs rawDir → precond5 editedDir jpegDir rawDir →
        ¬ precond6 editedDir jpegDir rawDir →
        validate fs sdCardRoot editedDir jpegDir rawDir = .error .editedEqJpeg)
    ∧ (precond1 fs sdCardRoot → precond2 fs editedDir → precond3 fs jpegDir →
        precond4 fs rawDir → precond5 editedDir jpegDir rawDir →
        precond6 editedDir jpegDir rawDir → ¬ precond7 editedDir jpegDir rawDir →
        validate fs sdCardRoot editedDir jpegDir rawDir = .error .notUnique) := by
  unfold validate precond1 precond2 precond3 precond4 precond5 precond6 precond7
  rcases jpegDir with _ | j <;> rcases rawDir with _ | r <;>
    simp only [Option.isSome_none, Option.isSome_some, Option.getD_some, Option.getD_none,
      Option.some.injEq, reduceCtorEq, false_and, true_and, and_true, not_false_eq_true,
      forall_eq, false_implies, true_implies, not_true_eq_false, and_false, or_false,
      false_or, ne_eq, not_not, Option.some_ne_none, if_false] <;>
    split_ifs <;>
    (simp_all; try tauto)

/-- Witness for C1: a concrete filesystem and request on which validation
succeeds, obtained by applying `validate_first_failure_spec`. -/
theorem validate_first_failure_spec_witness :
    validate [["sd", "DCIM"], ["E"], ["J"], ["R"]] ["sd"] ["E"] (some ["J"]) (some ["R"]) =
      .ok () := by
  apply (validate_first_failure_spec [["sd", "DCIM"], ["E"], ["J"], ["R"]] ["sd"] ["E"]
    (some ["J"]) (some ["R"])).1.mpr
  unfold precond1 precond2 precond3 precond4 precond5 precond6 precond7
  refine ⟨by decide, by decide, ?_, ?_, by decide, by decide, by decide⟩
  · intro j h
    rw [Option.some_inj] at h
    subst h
    decide
  · intro r h
    rw [Option.some_inj] at h
    subst h
    decide

/-! ## Collision-avoidance suffix search (`PhotoImporter._mkdirs`, lines 206-215) -/

/-- The candidate date string `f"{dateStr}-{index:02d}"`. -/
def candStr (dateStr : String) (i : Nat) : String := dateStr ++ "-" ++ pad2 i

/-- The loop guard: `any(updatedDateStr in match for match in ms)`. -/
def hasCand (ms : List String) (dateStr : String) (i : Nat) : Bool :=
  ms.any (fun m => strSub (candStr dateStr i) m)

/-- Largest length of an existing same-date entry. -/
def maxLen (ms : List String) : Nat := ms.foldr (fun m acc => max m.length acc) 0

theorem length_le_maxLen {ms : List String} {m : String} (h : m ∈ ms) :
    m.length ≤ maxLen ms := by
  induction ms with
  | nil => cases h
  | cons x xs ih =>
    rcases List.mem_cons.mp h with rfl | h
    · exact Nat.le_max_left _ _
    · exact Nat.le_trans (ih h) (Nat.le_max_right _ _)

theorem pad2_length_le_candStr_length (dateStr : String) (i : Nat) :
    (pad2 i).length ≤ (candStr dateStr i).length := by
  unfold candStr
  rw [String.length_append, String.length_append]
  omega

theorem lt_bound_of_hasCand {ms : List String} {dateStr : String} {i : Nat}
    (h : hasCand ms dateStr i = true) : i < 10 ^ maxLen ms := by
  rcases List.any_eq_true.mp h with ⟨m, hm, hsub⟩
  have h1 : (candStr dateStr i).length ≤ m.length := strSub_length_le hsub
  have h2 : (pad2 i).length ≤ maxLen ms :=
    Nat.le_trans (pad2_length_le_candStr_length dateStr i)
      (Nat.le_trans h1 (length_le_maxLen hm))
  exact Nat.lt_of_lt_of_le (lt_pow_pad2_length i) (Nat.pow_le_pow_right (by omega) h2)

/-- The unbounded `while True` suffix search of `_mkdirs`: starting at `index`,
return the first candidate date string contained in no existing match. -/
def searchLoop (ms : List String) (dateStr : String) (i : Nat) : String :=
  if h : hasCand ms dateStr i = true then searchLoop ms dateStr (i + 1)
  else candStr dateStr i
termination_by 10 ^ maxLen ms - i
decreasing_by
  have := lt_bound_of_hasCand h
  omega

theorem searchLoop_spec (ms : List String) (dateStr : String) (i : Nat) :
    ∃ N, i ≤ N ∧ hasCand ms dateStr N = false ∧
      (∀ k, i ≤ k → k < N → hasCand ms dateStr k = true) ∧
      searchLoop ms dateStr i = candStr dateStr N := by
  set B := 10 ^ maxLen ms with hB
  have main : ∀ j i, B - i ≤ j →
      ∃ N, i ≤ N ∧ hasCand ms dateStr N = false ∧
        (∀ k, i ≤ k → k < N → hasCand ms dateStr k = true) ∧
        searchLoop ms dateStr i = candStr dateStr N := by
    intro j
    induction j with
    | zero =>
      intro i hi
      have hfalse : hasCand ms dateStr i = false := by
        cases hcand : hasCand ms dateStr i with
        | false => rfl
        | true =>
          have := lt_bound_of_hasCand hcand
          omega
      refine ⟨i, Nat.le_refl i, hfalse, by omega, ?_⟩
      rw [searchLoop]
      simp [hfalse]
    | succ j ih =>
      intro i hi
      cases hcand : hasCand ms dateStr i with
      | false =>
        refine ⟨i, Nat.le_refl i, hcand, by omega, ?_⟩
        rw [searchLoop]
        simp [hcand]
      | true =>
        have hlt : i < B := lt_bound_of_hasCand hcand
        obtain ⟨N, hN1, hN2, hN3, hN4⟩ := ih (i + 1) (by omega)
        refine ⟨N, by omega, hN2, ?_, ?_⟩
        · intro k hk1 hk2
          rcases Nat.eq_or_lt_of_le hk1 with rfl | hk
          · exact hcand
          · exact hN3 k hk hk2
        · rw [searchLoop]
          simp [hcand, hN4]
  exact main (B - i) i (Nat.le_refl _)

/-- C9: the collision-suffix search loop terminates on every input: for every
finite list of same-date entries and every date string there is an index
`N ≥ 1` whose candidate `{dateStr}-{N:02d}` is contained in no entry, and the
loop started at index 1 returns the candidate of the least such index. -/
theorem searchLoop_terminates_least (ms : List String) (dateStr : String) :
    ∃ N, 1 ≤ N ∧ (∀ m ∈ ms, strSub (candStr dateStr N) m = false) ∧
      (∀ k, 1 ≤ k → k < N → ∃ m ∈ ms, strSub (candStr dateStr k) m = true) ∧
      searchLoop ms dateStr 1 = candStr dateStr N := by
  obtain ⟨N, hN1, hN2, hN3, hN4⟩ := searchLoop_spec ms dateStr 1
  refine ⟨N, hN1, ?_, ?_, hN4⟩
  · intro m hm
    have := List.any_eq_false.mp hN2 m hm
    simpa using this
  · intro k hk1 hk2
    exact List.any_eq_true.mp (hN3 k hk1 hk2)

/-! ## Directory resolution (`PhotoImporter._mkdirs`) -/

/-- A project date (`datetime.date`). -/
structure PDate where
  y : Nat
  m : Nat
  d : Nat
deriving DecidableEq

/-- `projectDate.strftime("%Y")`. -/
def fmtYear (dt : PDate) : String := natStr dt.y

/-- `projectDate.strftime(DATE_FORMAT)` with `constants.DATE_FORMAT = "%y%m%d"`. -/
def fmtDate (dt : PDate) : String := pad2 (dt.y % 100) ++ pad2 dt.m ++ pad2 dt.d

/-- The `PhotoImporter` instance fields used by `_mkdirs`, plus the filesystem.
An unset optional directory (`""` in the source) is the empty path `[]`.
`baseDirectory` records the composed folder name threaded from the edited
phase to the JPEG/RAW phases. -/
structure RState where
  fs : List FPath
  editedDir : FPath
  jpegDir : FPath
  rawDir : FPath
  projectName : String
  projectDate : PDate
  editedPathExists : Bool
  jpegPathAlreadyExists : Bool
  rawPathAlreadyExists : Bool
  baseDirectory : String
deriving DecidableEq

/-- `[project for project in listdir(yearPath) if dateStr in project]`. -/
def sameDateMatches (fs : List FPath) (yearPath : FPath) (dateStr : String) : List String :=
  (listdir fs yearPath).filter (fun p => strSub dateStr p)

/-- Lines 202-215 of `_mkdirs`: from the same-date entries, decide the final
date string and the edited-already-exists flag. -/
def resolveDateStr (ms : List String) (dateStr : String) (projectName : String) (flag : Bool) :
    String × Bool :=
  if ms.length > 0 then
    if ms.any (fun m => strSub projectName m) then (dateStr, true)
    else (searchLoop ms dateStr 1, flag)
  else (dateStr, flag)

/-- Lines 192-220 of `_mkdirs`: ensure the year folder under the edited root,
resolve collisions, and create the edited destination unless it already
exists. -/
def mkdirsEdited (s : RState) : Except Unit RState :=
  let yearPath := s.editedDir ++ [fmtYear s.projectDate]
  let fsE : Except Unit (List FPath) :=
    if yearPath ∈ s.fs then .ok s.fs else mkdir s.fs yearPath
  match fsE with
  | .error e => .error e
  | .ok fs1 =>
    let dr := resolveDateStr (sameDateMatches fs1 yearPath (fmtDate s.projectDate))
        (fmtDate s.projectDate) s.projectName s.editedPathExists
    let base := dr.1 ++ " " ++ s.projectName
    if dr.2 then .ok { s with fs := fs1, editedPathExists := dr.2, baseDirectory := base }
    else
      match mkdir fs1 (yearPath ++ [base]) with
      | .error e => .error e
      | .ok fs2 => .ok { s with fs := fs2, editedPathExists := dr.2, baseDirectory := base }

/-- Lines 222-229 of `_mkdirs`: the JPEG-destination phase. The intermediate
`{jpegRoot}/{year}` folder is never created here; `mkdir` of the leaf fails
when it is missing. -/
def mkdirsJpeg (s : RState) : Except Unit RState :=
  if s.jpegDir = [] then .ok s
  else if (s.jpegDir ++ [fmtYear s.projectDate]) ++ [s.baseDirectory] ∈ s.fs then
    .ok { s with jpegPathAlreadyExists := true }
  else
    match mkdir s.fs ((s.jpegDir ++ [fmtYear s.projectDate]) ++ [s.baseDirectory]) with
    | .error e => .error e
    | .ok fs1 =>
      .ok { s with
            fs := fs1,
            jpegDir := (s.jpegDir ++ [fmtYear s.projectDate]) ++ [s.baseDirectory] }

/-- Lines 231-238 of `_mkdirs`: the RAW-destination phase, with the `R`-prefixed
year and leaf names. -/
def mkdirsRaw (s : RState) : Except Unit RState :=
  if s.rawDir = [] then .ok s
  else if (s.rawDir ++ ["R" ++ fmtYear s.projectDate]) ++ ["R" ++ s.baseDirectory] ∈ s.fs then
    .ok { s with rawPathAlreadyExists := true }
  else
    match mkdir s.fs ((s.rawDir ++ ["R" ++ fmtYear s.projectDate]) ++ ["R" ++ s.baseDirectory]) with
    | .error e => .error e
    | .ok fs1 =>
      .ok { s with
            fs := fs1,
            rawDir := (s.rawDir ++ ["R" ++ fmtYear s.projectDate]) ++ ["R" ++ s.baseDirectory] }

/-- `PhotoImporter._mkdirs`: the three phases in source order. -/
def mkdirs (s : RState) : Except Unit RState := do
  let s1 ← mkdirsEdited s
  let s2 ← mkdirsJpeg s1
  mkdirsRaw s2

/-- The edited phase when some same-date entry contains the project name:
the flag is set, nothing is created. -/
theorem mkdirsEdited_existing (s : RState)
    (hYear : s.editedDir ++ [fmtYear s.projectDate] ∈ s.fs)
    (hm : (sameDateMatches s.fs (s.editedDir ++ [fmtYear s.projectDate])
        (fmtDate s.projectDate)).any (fun m => strSub s.projectName m) = true) :
    mkdirsEdited s = .ok { s with
      editedPathExists := true,
      baseDirectory := fmtDate s.projectDate ++ " " ++ s.projectName } := by
  have hlen : (sameDateMatches s.fs (s.editedDir ++ [fmtYear s.projectDate])
      (fmtDate s.projectDate)).length > 0 := by
    rcases List.any_eq_true.mp hm with ⟨m, hm', _⟩
    exact List.length_pos.mpr (List.ne_nil_of_mem hm')
  unfold mkdirsEdited resolveDateStr
  simp [hYear, hlen, hm]

/-- C6: directory resolution is idempotent for the edited destination: when the
year folder already contains an entry containing both the date string and the
project name (in particular one created by a prior run of the same request),
resolution sets the already-existing flag, creates no folder, and composes the
same base folder name. -/
theorem mkdirs_edited_idempotent (s : RState)
    (hYear : s.editedDir ++ [fmtYear s.projectDate] ∈ s.fs)
    (hEx : ∃ m ∈ listdir s.fs (s.editedDir ++ [fmtYear s.projectDate]),
        strSub (fmtDate s.projectDate) m = true ∧ strSub s.projectName m = true) :
    ∃ s', mkdirsEdited s = .ok s' ∧ s'.editedPathExists = true ∧ s'.fs = s.fs ∧
      s'.baseDirectory = fmtDate s.projectDate ++ " " ++ s.projectName := by
  obtain ⟨m, hm, hd, hn⟩ := hEx
  have hmem : m ∈ sameDateMatches s.fs (s.editedDir ++ [fmtYear s.projectDate])
      (fmtDate s.projectDate) := List.mem_filter.mpr ⟨hm, hd⟩
  refine ⟨_, mkdirsEdited_existing s hYear (List.any_eq_true.mpr ⟨m, hmem, hn⟩),
    rfl, rfl, rfl⟩

/-- The filesystem after a first run of `mkdirsEdited` for date 2023-01-01 and
project `Trip`: the edited folder `E/2023/230101 Trip` exists. -/
def sIdem : RState :=
  { fs := [["E"], ["E", "2023"], ["E", "2023", "230101 Trip"]],
    editedDir := ["E"], jpegDir := [], rawDir := [],
    projectName := "Trip", projectDate := ⟨2023, 1, 1⟩,
    editedPathExists := false, jpegPathAlreadyExists := false, rawPathAlreadyExists := false,
    baseDirectory := "" }

/-- Witness for C6: rerunning resolution for the same date and project flags
the edited destination as existing and creates nothing. -/
theorem mkdirs_edited_idempotent_witness :
    ∃ s', mkdirsEdited sIdem = .ok s' ∧ s'.editedPathExists = true ∧ s'.fs = sIdem.fs ∧
      s'.baseDirectory = fmtDate sIdem.projectDate ++ " " ++ sIdem.projectName :=
  mkdirs_edited_idempotent sIdem (by decide) (by decide)

/-- C10: same-project detection is substring containment on the project name,
not equality of the composed folder name: any same-date entry containing the
project name sets the already-existing flag and suppresses folder creation,
even when no entry equals the composed folder name. -/
theorem project_detection_by_containment (s : RState)
    (hYear : s.editedDir ++ [fmtYear s.projectDate] ∈ s.fs)
    (hEx : ∃ m ∈ listdir s.fs (s.editedDir ++ [fmtYear s.projectDate]),
        strSub (fmtDate s.projectDate) m = true ∧ strSub s.projectName m = true)
    (hneq : ∀ m ∈ listdir s.fs (s.editedDir ++ [fmtYear s.projectDate]),
        m ≠ fmtDate s.projectDate ++ " " ++ s.projectName) :
    (fmtDate s.projectDate ++ " " ++ s.projectName) ∉
        listdir s.fs (s.editedDir ++ [fmtYear s.projectDate]) ∧
      ∃ s', mkdirsEdited s = .ok s' ∧ s'.editedPathExists = true ∧ s'.fs = s.fs := by
  obtain ⟨m, hm, hd, hn⟩ := hEx
  have hmem : m ∈ sameDateMatches s.fs (s.editedDir ++ [fmtYear s.projectDate])
      (fmtDate s.projectDate) := List.mem_filter.mpr ⟨hm, hd⟩
  refine ⟨fun hc => hneq _ hc rfl, _,
    mkdirsEdited_existing s hYear (List.any_eq_true.mpr ⟨m, hmem, hn⟩), rfl, rfl⟩

/-- A year folder holding `230101 Trip to Rome` and a new request for project
`Trip` on the same date. -/
def sTrip : RState :=
  { fs := [["E"], ["E", "2023"], ["E", "2023", "230101 Trip to Rome"]],
    editedDir := ["E"], jpegDir := [], rawDir := [],
    projectName := "Trip", projectDate := ⟨2023, 1, 1⟩,
    editedPathExists := false, jpegPathAlreadyExists := false, rawPathAlreadyExists := false,
    baseDirectory := "" }

/-- Witness for C10: project `Trip` is "detected" inside `230101 Trip to Rome`
although no folder named `230101 Trip` exists. -/
theorem project_detection_by_containment_witness :
    (fmtDate sTrip.projectDate ++ " " ++ sTrip.projectName) ∉
        listdir sTrip.fs (sTrip.editedDir ++ [fmtYear sTrip.projectDate]) ∧
      ∃ s', mkdirsEdited sTrip = .ok s' ∧ s'.editedPathExists = true ∧ s'.fs = sTrip.fs :=
  project_detection_by_containment sTrip (by decide) (by decide) (by decide)

/-- C2 (amended): for a supplied JPEG root (and symmetrically a RAW root with
`R`-prefixed names): when the leaf `{jpegRoot}/{year}/{folderName}` exists,
the already-existing flag is set, nothing is created, and the stored JPEG root
is unchanged; when the leaf is absent and the intermediate `{jpegRoot}/{year}`
folder exists, the leaf is created and the working JPEG destination is rebound
to it; when the intermediate year folder is absent, directory creation fails
and nothing is created. -/
theorem mkdirs_jpeg_raw_creation (s : RState) :
    (s.jpegDir ≠ [] →
      ((s.jpegDir ++ [fmtYear s.projectDate]) ++ [s.baseDirectory] ∈ s.fs →
          mkdirsJpeg s = .ok { s with jpegPathAlreadyExists := true })
      ∧ ((s.jpegDir ++ [fmtYear s.projectDate]) ++ [s.baseDirectory] ∉ s.fs →
          s.jpegDir ++ [fmtYear s.projectDate] ∈ s.fs →
          mkdirsJpeg s = .ok { s with
            fs := s.fs ++ [(s.jpegDir ++ [fmtYear s.projectDate]) ++ [s.baseDirectory]],
            jpegDir := (s.jpegDir ++ [fmtYear s.projectDate]) ++ [s.baseDirectory] })
      ∧ ((s.jpegDir ++ [fmtYear s.projectDate]) ++ [s.baseDirectory] ∉ s.fs →
          s.jpegDir ++ [fmtYear s.projectDate] ∉ s.fs →
          mkdirsJpeg s = .error ()))
    ∧ (s.rawDir ≠ [] →
      ((s.rawDir ++ ["R" ++ fmtYear s.projectDate]) ++ ["R" ++ s.baseDirectory] ∈ s.fs →
          mkdirsRaw s = .ok { s with rawPathAlreadyExists := true })
      ∧ ((s.rawDir ++ ["R" ++ fmtYear s.projectDate]) ++ ["R" ++ s.baseDirectory] ∉ s.fs →
          s.rawDir ++ ["R" ++ fmtYear s.projectDate] ∈ s.fs →
          mkdirsRaw s = .ok { s with
            fs := s.fs ++ [(s.rawDir ++ ["R" ++ fmtYear s.projectDate]) ++
              ["R" ++ s.baseDirectory]],
            rawDir := (s.rawDir ++ ["R" ++ fmtYear s.projectDate]) ++
              ["R" ++ s.baseDirectory] })
      ∧ ((s.rawDir ++ ["R" ++ fmtYear s.projectDate]) ++ ["R" ++ s.baseDirectory] ∉ s.fs →
          s.rawDir ++ ["R" ++ fmtYear s.projectDate] ∉ s.fs →
          mkdirsRaw s = .error ())) := by
  constructor
  · intro hj
    refine ⟨fun hleaf => ?_, fun hleaf hyear => ?_, fun hleaf hyear => ?_⟩
    · unfold mkdirsJpeg
      rw [if_neg hj, if_pos hleaf]
    · have hmk : mkdir s.fs ((s.jpegDir ++ [fmtYear s.projectDate]) ++ [s.baseDirectory]) =
          .ok (s.fs ++ [(s.jpegDir ++ [fmtYear s.projectDate]) ++ [s.baseDirectory]]) := by
        unfold mkdir
        rw [List.dropLast_concat]
        exact if_pos ⟨hyear, hleaf⟩
      unfold mkdirsJpeg
      rw [if_neg hj, if_neg hleaf, hmk]
    · have hmk : mkdir s.fs ((s.jpegDir ++ [fmtYear s.projectDate]) ++ [s.baseDirectory]) =
          .error () := by
        unfold mkdir
        rw [List.dropLast_concat]
        exact if_neg (fun hc => hyear hc.1)
      unfold mkdirsJpeg
      rw [if_neg hj, if_neg hleaf, hmk]
  · intro hr
    refine ⟨fun hleaf => ?_, fun hleaf hyear => ?_, fun hleaf hyear => ?_⟩
    · unfold mkdirsRaw
      rw [if_neg hr, if_pos hleaf]
    · have hmk : mkdir s.fs
          ((s.rawDir ++ ["R" ++ fmtYear s.projectDate]) ++ ["R" ++ s.baseDirectory]) =
          .ok (s.fs ++ [(s.rawDir ++ ["R" ++ fmtYear s.projectDate]) ++
            ["R" ++ s.baseDirectory]]) := by
        unfold mkdir
        rw [List.dropLast_concat]
        exact if_pos ⟨hyear, hleaf⟩
      unfold mkdirsRaw
      rw [if_neg hr, if_neg hleaf, hmk]
    · have hmk : mkdir s.fs
          ((s.rawDir ++ ["R" ++ fmtYear s.projectDate]) ++ ["R" ++ s.baseDirectory]) =
          .error () := by
        unfold mkdir
        rw [List.dropLast_concat]
        exact if_neg (fun hc => hyear hc.1)
      unfold mkdirsRaw
      rw [if_neg hr, if_neg hleaf, hmk]

/-- JPEG and RAW roots whose year folders exist. -/
def sJR : RState :=
  { fs := [["J"], ["J", "2023"], ["R"], ["R", "R2023"]],
    editedDir := ["E"], jpegDir := ["J"], rawDir := ["R"],
    projectName := "P", projectDate := ⟨2023, 1, 1⟩,
    editedPathExists := false, jpegPathAlreadyExists := false, rawPathAlreadyExists := false,
    baseDirectory := "230101 P" }

/-- Witness for C2: with the year folders present, the JPEG and RAW leaves are
created and the working destinations rebound. -/
theorem mkdirs_jpeg_raw_creation_witness :
    mkdirsJpeg sJR = .ok { sJR with
        fs := sJR.fs ++ [(sJR.jpegDir ++ [fmtYear sJR.projectDate]) ++ [sJR.baseDirectory]],
        jpegDir := (sJR.jpegDir ++ [fmtYear sJR.projectDate]) ++ [sJR.baseDirectory] } ∧
    mkdirsRaw sJR = .ok { sJR with
        fs := sJR.fs ++ [(sJR.rawDir ++ ["R" ++ fmtYear sJR.projectDate]) ++
          ["R" ++ sJR.baseDirectory]],
        rawDir := (sJR.rawDir ++ ["R" ++ fmtYear sJR.projectDate]) ++
          ["R" ++ sJR.baseDirectory] } :=
  ⟨((mkdirs_jpeg_raw_creation sJR).1 (by decide)).2.1 (by decide) (by decide),
   ((mkdirs_jpeg_raw_creation sJR).2 (by decide)).2.1 (by decide) (by decide)⟩

/-- A JPEG root (and RAW root) whose intermediate year folder does not exist. -/
def sNoYear : RState :=
  { fs := [["J"], ["R"]],
    editedDir := ["E"], jpegDir := ["J"], rawDir := ["R"],
    projectName := "P", projectDate := ⟨2023, 1, 1⟩,
    editedPathExists := false, jpegPathAlreadyExists := false, rawPathAlreadyExists := false,
    baseDirectory := "230101 P" }

/-- Counterexample to C2 as stated: the JPEG (and RAW) leaf is absent, yet
resolution raises instead of creating it, because the intermediate
`{jpegRoot}/{year}` folder does not exist and `os.mkdir` does not create
intermediate directories. -/
theorem mkdirs_jpeg_missing_year_counterexample :
    (sNoYear.jpegDir ++ [fmtYear sNoYear.projectDate]) ++ [sNoYear.baseDirectory] ∉ sNoYear.fs ∧
    mkdirsJpeg sNoYear = .error () ∧
    (sNoYear.rawDir ++ ["R" ++ fmtYear sNoYear.projectDate]) ++ ["R" ++ sNoYear.baseDirectory]
        ∉ sNoYear.fs ∧
    mkdirsRaw sNoYear = .error () :=
  ⟨by decide, rfl, by decide, rfl⟩

/-- The edited phase when same-date entries exist but none contains the
project name: the date string is replaced by the suffix-search result and the
composed folder is created. -/
theorem mkdirsEdited_suffix (s : RState) (fs2 : List FPath)
    (hYear : s.editedDir ++ [fmtYear s.projectDate] ∈ s.fs)
    (hflag : s.editedPathExists = false)
    (hlen : 0 < (sameDateMatches s.fs (s.editedDir ++ [fmtYear s.projectDate])
        (fmtDate s.projectDate)).length)
    (hname : (sameDateMatches s.fs (s.editedDir ++ [fmtYear s.projectDate])
        (fmtDate s.projectDate)).any (fun m => strSub s.projectName m) = false)
    (hmk : mkdir s.fs ((s.editedDir ++ [fmtYear s.projectDate]) ++
        [searchLoop (sameDateMatches s.fs (s.editedDir ++ [fmtYear s.projectDate])
            (fmtDate s.projectDate)) (fmtDate s.projectDate) 1 ++ " " ++ s.projectName]) =
        .ok fs2) :
    mkdirsEdited s = .ok { s with
      fs := fs2,
      editedPathExists := false,
      baseDirectory := searchLoop (sameDateMatches s.fs (s.editedDir ++ [fmtYear s.projectDate])
          (fmtDate s.projectDate)) (fmtDate s.projectDate) 1 ++ " " ++ s.projectName } := by
  have hdr : resolveDateStr (sameDateMatches s.fs (s.editedDir ++ [fmtYear s.projectDate])
      (fmtDate s.projectDate)) (fmtDate s.projectDate) s.projectName s.editedPathExists =
      (searchLoop (sameDateMatches s.fs (s.editedDir ++ [fmtYear s.projectDate])
          (fmtDate s.projectDate)) (fmtDate s.projectDate) 1, false) := by
    unfold resolveDateStr
    rw [if_pos hlen, if_neg (by rw [hname]; exact Bool.false_ne_true), hflag]
  unfold mkdirsEdited
  simp only []
  rw [if_pos hYear]
  simp only []
  rw [hdr]
  simp only [Bool.false_eq_true, if_false]
  rw [hmk]

/-- Two same-date folders `230101 A` and `230101-01 B` under the 2023 year
folder, and a request for a new project `C` dated 2023-01-01. -/
def sSuffix : RState :=
  { fs := [["E"], ["E", "2023"], ["E", "2023", "230101 A"], ["E", "2023", "230101-01 B"]],
    editedDir := ["E"], jpegDir := [], rawDir := [],
    projectName := "C", projectDate := ⟨2023, 1, 1⟩,
    editedPathExists := false, jpegPathAlreadyExists := false, rawPathAlreadyExists := false,
    baseDirectory := "" }

/-- C5: when same-date entries exist and none contains the project name, the
resolver hands the date string to the suffix search over the existing-matches
list (not the filesystem); concretely, with existing entries dated `230101`
and `230101-01`, a new request dated `230101` composes its folder name with
date string `230101-02`. -/
theorem suffix_collision_resolution :
    (∀ (ms : List String) (dateStr projectName : String) (flag : Bool),
        0 < ms.length → ms.any (fun m => strSub projectName m) = false →
        resolveDateStr ms dateStr projectName flag = (searchLoop ms dateStr 1, flag))
    ∧ searchLoop ["230101 A", "230101-01 B"] "230101" 1 = "230101-02"
    ∧ mkdirsEdited sSuffix = .ok { sSuffix with
        fs := sSuffix.fs ++ [["E", "2023", "230101-02 C"]],
        baseDirectory := "230101-02 C" } := by
  have hsame : sameDateMatches sSuffix.fs (sSuffix.editedDir ++ [fmtYear sSuffix.projectDate])
      (fmtDate sSuffix.projectDate) = ["230101 A", "230101-01 B"] := rfl
  have hloop : searchLoop ["230101 A", "230101-01 B"] "230101" 1 = "230101-02" := by
    obtain ⟨N, h1, h2, h3, h4⟩ := searchLoop_spec ["230101 A", "230101-01 B"] "230101" 1
    have hc1 : hasCand ["230101 A", "230101-01 B"] "230101" 1 = true := by decide
    have hc2 : hasCand ["230101 A", "230101-01 B"] "230101" 2 = false := by decide
    have hN : N = 2 := by
      rcases Nat.lt_trichotomy N 2 with h | h | h
      · have : N = 1 := by omega
        rw [this] at h2
        rw [hc1] at h2
        cases h2
      · exact h
      · have := h3 2 (by omega) h
        rw [hc2] at this
        cases this
      
    rw [hN] at h4
    exact h4
  refine ⟨?_, hloop, ?_⟩
  · intro ms dateStr projectName flag hlen hname
    unfold resolveDateStr
    simp only [hname, hlen, if_true, if_false, Bool.false_eq_true, ite_false, gt_iff_lt, ite_true]
  · have h := mkdirsEdited_suffix sSuffix
      (sSuffix.fs ++ [["E", "2023", "230101-02 C"]])
      (by decide) rfl (by decide) (by decide) ?hmk
    case hmk =>
      rw [hsame, show fmtDate sSuffix.projectDate = "230101" from rfl, hloop]
      rfl
    rw [hsame, show fmtDate sSuffix.projectDate = "230101" from rfl, hloop] at h
    exact h

/-- Witness for C5: the general suffix branch applied to the concrete
existing-matches list. -/
theorem suffix_collision_resolution_witness :
    resolveDateStr ["230101 A", "230101-01 B"] "230101" "C" false =
      (searchLoop ["230101 A", "230101-01 B"] "230101" 1, false) :=
  suffix_collision_resolution.1 ["230101 A", "230101-01 B"] "230101" "C" false
    (by decide) (by decide)

/-! ## SHA-256 (FIPS 180-4), modelling `hashlib.sha256` -/

/-- Truncation to 32 bits. -/
def w32 (x : Nat) : Nat := x % 4294967296

/-- 32-bit modular addition. -/
def add32 (a b : Nat) : Nat := (a + b) % 4294967296

/-- 32-bit complement. -/
def not32 (x : Nat) : Nat := Nat.xor x 4294967295

/-- 32-bit right rotation. -/
def rotr32 (x n : Nat) : Nat := w32 (Nat.lor (x >>> n) (x <<< (32 - n)))

def smallSigma0 (x : Nat) : Nat := Nat.xor (Nat.xor (rotr32 x 7) (rotr32 x 18)) (x >>> 3)

def smallSigma1 (x : Nat) : Nat := Nat.xor (Nat.xor (rotr32 x 17) (rotr32 x 19)) (x >>> 10)

def bigSigma0 (x : Nat) : Nat := Nat.xor (Nat.xor (rotr32 x 2) (rotr32 x 13)) (rotr32 x 22)

def bigSigma1 (x : Nat) : Nat := Nat.xor (Nat.xor (rotr32 x 6) (rotr32 x 11)) (rotr32 x 25)

def chFn (x y z : Nat) : Nat := Nat.xor (Nat.land x y) (Nat.land (not32 x) z)

def majFn (x y z : Nat) : Nat :=
  Nat.xor (Nat.xor (Nat.land x y) (Nat.land x z)) (Nat.land y z)

/-- The eight 32-bit working variables of the compression function. -/
structure Sha256St where
  a : Nat
  b : Nat
  c : Nat
  d : Nat
  e : Nat
  f : Nat
  g : Nat
  h : Nat
deriving DecidableEq

/-- FIPS 180-4 initial hash value. -/
def shaInit : Sha256St :=
  ⟨1779033703, 3144134277, 1013904242, 2773480762,
   1359893119, 2600822924, 528734635, 1541459225⟩

/-- FIPS 180-4 round constants. -/
def kTable : List Nat :=
  [1116352408, 1899447441, 3049323471, 3921009573, 961987163, 1508970993,
   2453635748, 2870763221, 3624381080, 310598401, 607225278, 1426881987,
   1925078388, 2162078206, 2614888103, 3248222580, 3835390401, 4022224774,
   264347078, 604807628, 770255983, 1249150122, 1555081692, 1996064986,
   2554220882, 2821834349, 2952996808, 3210313671, 3336571891, 3584528711,
   113926993, 338241895, 666307205, 773529912, 1294757372, 1396182291,
   1695183700, 1986661051, 2177026350, 2456956037, 2730485921, 2820302411,
   3259730800, 3345764771, 3516065817, 3600352804, 4094571909, 275423344,
   430227734, 506948616, 659060556, 883997877, 958139571, 1322822218,
   1537002063, 1747873779, 1955562222, 2024104815, 2227730452, 2361852424,
   2428436474, 2756734187, 3204031479, 3329325298]

/-- Message-schedule extension: append `n` further words. -/
def extendW : Nat → List Nat → List Nat
  | 0, acc => acc
  | n+1, acc =>
    extendW n (acc ++ [add32 (add32 (smallSigma1 (acc.getD (acc.length - 2) 0))
        (acc.getD (acc.length - 7) 0))
      (add32 (smallSigma0 (acc.getD (acc.length - 15) 0)) (acc.getD (acc.length - 16) 0))])

/-- One compression round. -/
def roundStep (st : Sha256St) (kw : Nat × Nat) : Sha256St :=
  ⟨add32 (add32 st.h (add32 (bigSigma1 st.e) (add32 (chFn st.e st.f st.g) (add32 kw.1 kw.2))))
      (add32 (bigSigma0 st.a) (majFn st.a st.b st.c)),
   st.a, st.b, st.c,
   add32 st.d (add32 st.h (add32 (bigSigma1 st.e) (add32 (chFn st.e st.f st.g)
      (add32 kw.1 kw.2)))),
   st.e, st.f, st.g⟩

/-- Split a byte list into chunks of at most `n` bytes, preserving order;
`cur` is the reversed current chunk and `cap` its remaining capacity. -/
def chunkGo (n : Nat) : List Nat → List Nat → Nat → List (List Nat)
  | [], cur, _ => if cur = [] then [] else [cur.reverse]
  | x :: xs, cur, cap =>
    if cap ≤ 1 then (x :: cur).reverse :: chunkGo n xs [] n
    else chunkGo n xs (x :: cur) (cap - 1)

/-- The sequence of chunks returned by `iter(lambda: file.read(n), b"")`:
successive reads of at most `n` bytes until the read comes back empty. -/
def chunksOf (n : Nat) (l : List Nat) : List (List Nat) :=
  if n = 0 then [] else chunkGo n l [] n

/-- A 32-bit word from four big-endian bytes. -/
def word32OfBytes (bs : List Nat) : Nat :=
  bs.getD 0 0 * 16777216 + bs.getD 1 0 * 65536 + bs.getD 2 0 * 256 + bs.getD 3 0

/-- The sixteen 32-bit words of a 64-byte block. -/
def wordsOfBlock (b : List Nat) : List Nat := (chunksOf 4 b).map word32OfBytes

/-- Process one 64-byte block. -/
def compressBlock (st : Sha256St) (block : List Nat) : Sha256St :=
  match (kTable.zip (extendW 48 (wordsOfBlock block))).foldl roundStep st with
  | r => ⟨add32 st.a r.a, add32 st.b r.b, add32 st.c r.c, add32 st.d r.d,
          add32 st.e r.e, add32 st.f r.f, add32 st.g r.g, add32 st.h r.h⟩

/-- `k` big-endian bytes of `n`. -/
def bytesBE : Nat → Nat → List Nat
  | 0, _ => []
  | k+1, n => bytesBE k (n / 256) ++ [n % 256]

/-- FIPS 180-4 padding: `0x80`, zeros to 56 mod 64, and the 64-bit bit length. -/
def padMsg (msg : List Nat) : List Nat :=
  msg ++ [128] ++ List.replicate ((119 - msg.length % 64) % 64) 0 ++ bytesBE 8 (msg.length * 8)

/-- Serialize the final state, big-endian. -/
def outBytes (st : Sha256St) : List Nat :=
  bytesBE 4 st.a ++ bytesBE 4 st.b ++ bytesBE 4 st.c ++ bytesBE 4 st.d ++
  bytesBE 4 st.e ++ bytesBE 4 st.f ++ bytesBE 4 st.g ++ bytesBE 4 st.h

/-- SHA-256 of a byte stream: the reference whole-stream digest
(`hashlib.sha256(data).digest()`). -/
def sha256Bytes (msg : List Nat) : List Nat :=
  outBytes ((chunksOf 64 (padMsg msg)).foldl compressBlock shaInit)

/-- An incremental `hashlib.sha256()` context: it absorbs the bytes fed so
far; `digest()` hashes the absorbed stream. -/
structure HashCtx where
  absorbed : List Nat
deriving DecidableEq

/-- `hashlib.sha256()`. -/
def shaNew : HashCtx := ⟨[]⟩

/-- `ctx.update(chunk)`. -/
def shaUpdate (c : HashCtx) (chunk : List Nat) : HashCtx := ⟨c.absorbed ++ chunk⟩

/-- `ctx.digest()`. -/
def shaFinal (c : HashCtx) : List Nat := sha256Bytes c.absorbed

/-- `PhotoImporterWorker.getFileHash`: read the file in 1 MiB chunks, feeding
each chunk to the incremental context, and return the digest. -/
def getFileHash (contents : List Nat) : List Nat :=
  shaFinal ((chunksOf (1024 * 1024) contents).foldl shaUpdate shaNew)

/-- Known-answer test: SHA-256 of the empty stream. -/
theorem sha256Bytes_empty_vector :
    sha256Bytes [] =
      [0xe3, 0xb0, 0xc4, 0x42, 0x98, 0xfc, 0x1c, 0x14, 0x9a, 0xfb, 0xf4, 0xc8, 0x99, 0x6f,
       0xb9, 0x24, 0x27, 0xae, 0x41, 0xe4, 0x64, 0x9b, 0x93, 0x4c, 0xa4, 0x95, 0x99, 0x1b,
       0x78, 0x52, 0xb8, 0x55] := by
  decide

/-- Known-answer test: SHA-256 of `"abc"`. -/
theorem sha256Bytes_abc_vector :
    sha256Bytes [0x61, 0x62, 0x63] =
      [0xba, 0x78, 0x16, 0xbf, 0x8f, 0x01, 0xcf, 0xea, 0x41, 0x41, 0x40, 0xde, 0x5d, 0xae,
       0x22, 0x23, 0xb0, 0x03, 0x61, 0xa3, 0x96, 0x17, 0x7a, 0x9c, 0xb4, 0x10, 0xff, 0x61,
       0xf2, 0x00, 0x15, 0xad] := by
  decide

theorem chunkGo_join (n : Nat) (l : List Nat) :
    ∀ cur cap, (chunkGo n l cur cap).flatten = cur.reverse ++ l := by
  induction l with
  | nil =>
    intro cur cap
    unfold chunkGo
    split
    · simp [*]
    · simp
  | cons x xs ih =>
    intro cur cap
    unfold chunkGo
    split
    · rw [List.flatten]
      rw [ih [] n]
      simp
    · rw [ih (x :: cur) (cap - 1)]
      simp

theorem chunksOf_join {n : Nat} (hn : 0 < n) (l : List Nat) : (chunksOf n l).flatten = l := by
  unfold chunksOf
  rw [if_neg (by omega)]
  rw [chunkGo_join]
  simp

theorem foldl_shaUpdate_absorbed (cs : List (List Nat)) :
    ∀ c : HashCtx, (cs.foldl shaUpdate c).absorbed = c.absorbed ++ cs.flatten := by
  induction cs with
  | nil => simp
  | cons x xs ih =>
    intro c
    rw [List.foldl_cons, ih, List.flatten]
    simp [shaUpdate]

theorem bytesBE_length (k : Nat) : ∀ n, (bytesBE k n).length = k := by
  induction k with
  | zero => intro n; rfl
  | succ k ih =>
    intro n
    unfold bytesBE
    rw [List.length_append, ih]
    simp

theorem sha256Bytes_length (msg : List Nat) : (sha256Bytes msg).length = 32 := by
  unfold sha256Bytes outBytes
  simp [bytesBE_length]

/-- C8: the chunked streaming hash equals the reference whole-stream digest:
for every file contents, folding the 1 MiB chunks into the incremental context
yields exactly the 256-bit SHA-256 of the full byte stream; two files are
reported identical iff their whole-content digests are byte-equal; the empty
file yields the digest of zero bytes. -/
theorem getFileHash_refines_sha256 :
    (∀ contents : List Nat, getFileHash contents = sha256Bytes contents)
    ∧ (∀ a b : List Nat, getFileHash a = getFileHash b ↔ sha256Bytes a = sha256Bytes b)
    ∧ getFileHash [] = sha256Bytes []
    ∧ (∀ contents : List Nat, (getFileHash contents).length = 32) := by
  have hmain : ∀ contents : List Nat, getFileHash contents = sha256Bytes contents := by
    intro contents
    unfold getFileHash shaFinal
    rw [foldl_shaUpdate_absorbed, chunksOf_join (by omega)]
    rfl
  refine ⟨hmain, fun a b => by rw [hmain a, hmain b], hmain [], fun contents => ?_⟩
  rw [hmain contents]
  exact sha256Bytes_length contents

/-! ## Transfer worker (`PhotoImporterWorker.run`) -/

/-- A file store: association of file paths to byte contents. -/
structure WFS where
  files : List (FPath × List Nat)
deriving DecidableEq

/-- Read a file's bytes; `none` models `FileNotFoundError` on `open`. -/
def readFile (fs : WFS) (p : FPath) : Option (List Nat) :=
  match fs.files.find? (fun e => decide (e.1 = p)) with
  | some e => some e.2
  | none => none

/-- `shutil.copy2`'s effect at the destination: (over)write the file. -/
def writeFile (fs : WFS) (p : FPath) (c : List Nat) : WFS :=
  ⟨fs.files.filter (fun e => decide (e.1 ≠ p)) ++ [(p, c)]⟩

/-- `os.remove p`. -/
def removeFile (fs : WFS) (p : FPath) : WFS :=
  ⟨fs.files.filter (fun e => decide (e.1 ≠ p))⟩

theorem find?_filter_ne {p q : FPath} (hne : q ≠ p) (l : List (FPath × List Nat)) :
    (l.filter (fun e => decide (e.1 ≠ p))).find? (fun e => decide (e.1 = q)) =
      l.find? (fun e => decide (e.1 = q)) := by
  induction l with
  | nil => rfl
  | cons x xs ih =>
    by_cases hxp : x.1 = p
    · have h1 : (decide (x.1 ≠ p)) = false := by simp [hxp]
      have h2 : (decide (x.1 = q)) = false := by
        simp [hxp]
        exact fun hc => hne hc.symm
      rw [List.filter_cons, h1, List.find?_cons, h2]
      simp only [if_false, Bool.false_eq_true, ite_false]
      exact ih
    · have h1 : (decide (x.1 ≠ p)) = true := by simp [hxp]
      rw [List.filter_cons, h1]
      simp only [if_true, ite_true]
      rw [List.find?_cons, List.find?_cons]
      cases hq : decide (x.1 = q) with
      | false => exact ih
      | true => rfl

theorem readFile_writeFile_self (fs : WFS) (p : FPath) (c : List Nat) :
    readFile (writeFile fs p c) p = some c := by
  unfold readFile writeFile
  rw [List.find?_append]
  have hnone : (fs.files.filter (fun e => decide (e.1 ≠ p))).find?
      (fun e => decide (e.1 = p)) = none := by
    rw [List.find?_eq_none]
    intro x hx
    have := List.of_mem_filter hx
    simp at this
    simp [this]
  rw [hnone]
  simp

theorem readFile_writeFile_ne (fs : WFS) {p q : FPath} (c : List Nat) (hne : q ≠ p) :
    readFile (writeFile fs p c) q = readFile fs q := by
  unfold readFile writeFile
  rw [List.find?_append, find?_filter_ne hne]
  cases hf : fs.files.find? (fun e => decide (e.1 = q)) with
  | some e => rfl
  | none =>
    have h2 : ([(p, c)].find? (fun e => decide (e.1 = q))) = none := by
      rw [List.find?_eq_none]
      intro x hx
      simp only [List.mem_singleton] at hx
      subst hx
      simp only [decide_eq_true_eq]
      exact fun hc => hne hc.symm
    simp [h2]

theorem readFile_removeFile_self (fs : WFS) (p : FPath) :
    readFile (removeFile fs p) p = none := by
  unfold readFile removeFile
  have hnone : (fs.files.filter (fun e => decide (e.1 ≠ p))).find?
      (fun e => decide (e.1 = p)) = none := by
    rw [List.find?_eq_none]
    intro x hx
    have := List.of_mem_filter hx
    simp at this
    simp [this]
  rw [hnone]

/-- The payloads of the worker's `statusMessage` signals, one constructor per
emit site. -/
inductive Msg where
  | copying (base : String) (dest : FPath)
  | checking (base : String)
  | deleting (file : FPath)
deriving DecidableEq

/-- The coordinator- and worker-level Qt signals, in emission order. -/
inductive Ev where
  | importingEv
  | updateOps (n : Nat)
  | statusMsg (m : Msg)
  | completedOp
  | workerFinished
  | importDone
deriving DecidableEq

/-- `os.path.basename`. -/
def basename (p : FPath) : String := p.getLastD ""

/-- One per-file unit of `PhotoImporterWorker.run`: status, copy, completed;
status, hash both sides, completed; then delete the source (status first) when
the digests agree, else leave it (the source prints a console line, which is
not a signal); completed in either branch. `corrupt` gives the bytes that
actually land at the destination (identity = faithful copy). A `none` result
models an uncaught `IOError` aborting the worker, with the events already
emitted. -/
def runFile (corrupt : FPath → List Nat → List Nat) (dest : FPath) (fs : WFS) (file : FPath) :
    List Ev × Option WFS :=
  match readFile fs file with
  | none => ([.statusMsg (.copying (basename file) dest)], none)
  | some contents =>
    let fs1 := writeFile fs (dest ++ [basename file]) (corrupt file contents)
    match readFile fs1 file, readFile fs1 (dest ++ [basename file]) with
    | some srcC, some dstC =>
      if getFileHash srcC = getFileHash dstC then
        ([.statusMsg (.copying (basename file) dest), .completedOp,
          .statusMsg (.checking (basename file)), .completedOp,
          .statusMsg (.deleting file), .completedOp],
         some (removeFile fs1 file))
      else
        ([.statusMsg (.copying (basename file) dest), .completedOp,
          .statusMsg (.checking (basename file)), .completedOp, .completedOp],
         some fs1)
    | _, _ =>
      ([.statusMsg (.copying (basename file) dest), .completedOp,
        .statusMsg (.checking (basename file))], none)

/-- The worker's loop over its batch, emitting `finished` after the last file. -/
def runBatch (corrupt : FPath → List Nat → List Nat) (dest : FPath) :
    WFS → List FPath → List Ev × Option WFS
  | fs, [] => ([.workerFinished], some fs)
  | fs, f :: rest =>
    match runFile corrupt dest fs f with
    | (evs, none) => (evs, none)
    | (evs, some fs1) =>
      match runBatch corrupt dest fs1 rest with
      | (evs2, r) => (evs ++ evs2, r)

/-- `_importPhotos` lines 147-159 with the two sequential worker batches:
`importing`, announce `(len(jpeg) + len(raw)) * 3` operations, run the JPEG
batch, then the RAW batch, then `importComplete`. -/
def importRun (corrupt : FPath → List Nat → List Nat) (fs : WFS)
    (jpegFiles rawFiles : List FPath) (jpegDest rawDest : FPath) : List Ev × Option WFS :=
  match runBatch corrupt jpegDest fs jpegFiles with
  | (e1, none) =>
    ([.importingEv, .updateOps ((jpegFiles.length + rawFiles.length) * 3)] ++ e1, none)
  | (e1, some fs1) =>
    match runBatch corrupt rawDest fs1 rawFiles with
    | (e2, none) =>
      ([.importingEv, .updateOps ((jpegFiles.length + rawFiles.length) * 3)] ++ e1 ++ e2, none)
    | (e2, some fs2) =>
      ([.importingEv, .updateOps ((jpegFiles.length + rawFiles.length) * 3)] ++ e1 ++ e2 ++
        [.importDone], some fs2)

/-- Number of `completedOperation` signals in a trace. -/
def countOps (evs : List Ev) : Nat :=
  (evs.filter (fun e => decide (e = Ev.completedOp))).length

/-- Number of `updateNumberOfOperations` signals in a trace. -/
def countUpdates (evs : List Ev) : Nat :=
  (evs.filter (fun e => match e with | Ev.updateOps _ => true | _ => false)).length

theorem countOps_append (a b : List Ev) : countOps (a ++ b) = countOps a + countOps b := by
  unfold countOps
  rw [List.filter_append, List.length_append]

theorem countUpdates_append (a b : List Ev) :
    countUpdates (a ++ b) = countUpdates a + countUpdates b := by
  unfold countUpdates
  rw [List.filter_append, List.length_append]

theorem countOps_prefix_le {p evs : List Ev} (h : p <+: evs) : countOps p ≤ countOps evs := by
  obtain ⟨t, rfl⟩ := h
  rw [countOps_append]
  omega

theorem runFile_counts (corrupt : FPath → List Nat → List Nat) (dest : FPath) (fs : WFS)
    (file : FPath) :
    countOps (runFile corrupt dest fs file).1 ≤ 3 ∧
    ((runFile corrupt dest fs file).2.isSome →
      countOps (runFile corrupt dest fs file).1 = 3) ∧
    countUpdates (runFile corrupt dest fs file).1 = 0 := by
  unfold runFile
  cases readFile fs file with
  | none => simp [countOps, countUpdates]
  | some contents =>
    simp only []
    cases readFile (writeFile fs (dest ++ [basename file]) (corrupt file contents)) file with
    | none => simp [countOps, countUpdates]
    | some srcC =>
      cases readFile (writeFile fs (dest ++ [basename file]) (corrupt file contents))
          (dest ++ [basename file]) with
      | none => simp [countOps, countUpdates]
      | some dstC =>
        by_cases hh : getFileHash srcC = getFileHash dstC
        · simp [hh, countOps, countUpdates]
        · simp [hh, countOps, countUpdates]

theorem runBatch_counts (corrupt : FPath → List Nat → List Nat) (dest : FPath) :
    ∀ (files : List FPath) (fs : WFS),
    countOps (runBatch corrupt dest fs files).1 ≤ 3 * files.length ∧
    ((runBatch corrupt dest fs files).2.isSome →
      countOps (runBatch corrupt dest fs files).1 = 3 * files.length) ∧
    countUpdates (runBatch corrupt dest fs files).1 = 0 := by
  intro files
  induction files with
  | nil =>
    intro fs
    simp [runBatch, countOps, countUpdates]
  | cons f rest ih =>
    intro fs
    obtain ⟨hle, heq, hupd⟩ := runFile_counts corrupt dest fs f
    unfold runBatch
    rcases hrf : runFile corrupt dest fs f with ⟨evs, r⟩
    rw [hrf] at hle heq hupd
    simp only at hle heq hupd
    cases r with
    | none =>
      simp only []
      refine ⟨?_, by simp, hupd⟩
      simp only [List.length_cons]
      omega
    | some fs1 =>
      simp only []
      obtain ⟨hle2, heq2, hupd2⟩ := ih fs1
      rcases hrb : runBatch corrupt dest fs1 rest with ⟨evs2, r2⟩
      rw [hrb] at hle2 heq2 hupd2
      simp only at hle2 heq2 hupd2
      simp only []
      rw [countOps_append, countUpdates_append]
      have h3 : countOps evs = 3 := heq (by simp)
      refine ⟨?_, fun hr2 => ?_, by omega⟩
      · simp only [List.length_cons]
        omega
      · have h4 : countOps evs2 = 3 * rest.length := heq2 hr2
        simp only [List.length_cons]
        omega

/-- C4: the announced operation total equals `3 * (|jpegBatch| + |rawBatch|)`,
is emitted exactly once, before any per-file operation; the cumulative count
of `completedOperation` events never exceeds the total at any point of the
trace, and equals it exactly when the run completes. -/
theorem operation_count_spec (corrupt : FPath → List Nat → List Nat) (fs : WFS)
    (jpegFiles rawFiles : List FPath) (jpegDest rawDest : FPath)
    (evs : List Ev) (r : Option WFS)
    (h : importRun corrupt fs jpegFiles rawFiles jpegDest rawDest = (evs, r)) :
    (∃ rest, evs = Ev.importingEv ::
        Ev.updateOps ((jpegFiles.length + rawFiles.length) * 3) :: rest ∧
        countUpdates rest = 0)
    ∧ (∀ p, p <+: evs → countOps p ≤ (jpegFiles.length + rawFiles.length) * 3)
    ∧ (r.isSome → countOps evs = (jpegFiles.length + rawFiles.length) * 3) := by
  obtain ⟨hle1, heq1, hupd1⟩ := runBatch_counts corrupt jpegDest jpegFiles fs
  unfold importRun at h
  rcases hb1 : runBatch corrupt jpegDest fs jpegFiles with ⟨e1, r1⟩
  rw [hb1] at h hle1 heq1 hupd1
  simp only at hle1 heq1 hupd1
  cases r1 with
  | none =>
    simp only [] at h
    injection h with hA hB
    subst hA
    subst hB
    refine ⟨⟨e1, by simp, hupd1⟩, fun p hp => ?_, by simp⟩
    have hmax : countOps ([Ev.importingEv,
        Ev.updateOps ((jpegFiles.length + rawFiles.length) * 3)] ++ e1) = countOps e1 := by
      rw [countOps_append]
      simp [countOps]
    calc countOps p
        ≤ countOps ([Ev.importingEv,
            Ev.updateOps ((jpegFiles.length + rawFiles.length) * 3)] ++ e1) :=
          countOps_prefix_le hp
      _ = countOps e1 := hmax
      _ ≤ (jpegFiles.length + rawFiles.length) * 3 := by omega
  | some fs1 =>
    simp only [] at h
    obtain ⟨hle2, heq2, hupd2⟩ := runBatch_counts corrupt rawDest rawFiles fs1
    rcases hb2 : runBatch corrupt rawDest fs1 rawFiles with ⟨e2, r2⟩
    rw [hb2] at h hle2 heq2 hupd2
    simp only at hle2 heq2 hupd2
    have h1 : countOps e1 = 3 * jpegFiles.length := heq1 (by simp)
    cases r2 with
    | none =>
      simp only [] at h
      injection h with hA hB
      subst hA
      subst hB
      refine ⟨⟨e1 ++ e2, by simp, by rw [countUpdates_append]; omega⟩, fun p hp => ?_, by simp⟩
      have hmax : countOps ([Ev.importingEv,
          Ev.updateOps ((jpegFiles.length + rawFiles.length) * 3)] ++ e1 ++ e2) =
          countOps e1 + countOps e2 := by
        rw [countOps_append, countOps_append]
        simp [countOps]
      calc countOps p
          ≤ countOps ([Ev.importingEv,
              Ev.updateOps ((jpegFiles.length + rawFiles.length) * 3)] ++ e1 ++ e2) :=
            countOps_prefix_le hp
        _ = countOps e1 + countOps e2 := hmax
        _ ≤ (jpegFiles.length + rawFiles.length) * 3 := by omega
    | some fs2 =>
      simp only [] at h
      injection h with hA hB
      subst hA
      subst hB
      have h2 : countOps e2 = 3 * rawFiles.length := heq2 (by simp)
      have hmax : countOps ([Ev.importingEv,
          Ev.updateOps ((jpegFiles.length + rawFiles.length) * 3)] ++ e1 ++ e2 ++
            [Ev.importDone]) = countOps e1 + countOps e2 := by
        rw [countOps_append, countOps_append, countOps_append]
        simp [countOps]
      refine ⟨⟨e1 ++ e2 ++ [Ev.importDone], by simp, ?_⟩, fun p hp => ?_, fun _ => ?_⟩
      · rw [countUpdates_append, countUpdates_append]
        have hdone : countUpdates [Ev.importDone] = 0 := rfl
        omega
      · calc countOps p
            ≤ countOps ([Ev.importingEv,
                Ev.updateOps ((jpegFiles.length + rawFiles.length) * 3)] ++ e1 ++ e2 ++
                  [Ev.importDone]) := countOps_prefix_le hp
          _ = countOps e1 + countOps e2 := hmax
          _ ≤ (jpegFiles.length + rawFiles.length) * 3 := by omega
      · rw [hmax]
        omega

/-- A source filesystem with one JPEG file. -/
def wfsOne : WFS := ⟨[(["src", "a.jpg"], [1, 2, 3])]⟩

/-- The event trace of a clean one-file import run. -/
def evsOne : List Ev :=
  [Ev.importingEv, Ev.updateOps 3,
   Ev.statusMsg (Msg.copying "a.jpg" ["dstJ"]), Ev.completedOp,
   Ev.statusMsg (Msg.checking "a.jpg"), Ev.completedOp,
   Ev.statusMsg (Msg.deleting ["src", "a.jpg"]), Ev.completedOp,
   Ev.workerFinished, Ev.workerFinished, Ev.importDone]

/-- Witness for C4: a clean one-JPEG run announces 3 operations, every trace
prefix stays below the total, and the completed run reaches it exactly. -/
theorem operation_count_spec_witness :
    (∃ rest, evsOne = Ev.importingEv :: Ev.updateOps ((List.length [["src", "a.jpg"]] +
        List.length ([] : List FPath)) * 3) :: rest ∧ countUpdates rest = 0)
    ∧ (∀ p, p <+: evsOne → countOps p ≤ (List.length [["src", "a.jpg"]] +
        List.length ([] : List FPath)) * 3)
    ∧ ((some (⟨[(["dstJ", "a.jpg"], [1, 2, 3])]⟩ : WFS)).isSome →
        countOps evsOne = (List.length [["src", "a.jpg"]] +
          List.length ([] : List FPath)) * 3) :=
  operation_count_spec (fun _ c => c) wfsOne [["src", "a.jpg"]] [] ["dstJ"] ["dstR"]
    evsOne (some ⟨[(["dstJ", "a.jpg"], [1, 2, 3])]⟩) rfl

/-- C3: per file, when the digests of the source and of the freshly copied
destination differ, the worker keeps the source file (same contents), emits no
deletion status event, and continues with the rest of the batch; when the
digests agree it deletes the source, emitting the deletion status event
first. -/
theorem integrity_mismatch_preserves_source (corrupt : FPath → List Nat → List Nat)
    (dest : FPath) (fs : WFS) (file : FPath) (rest : List FPath) (contents : List Nat)
    (hread : readFile fs file = some contents)
    (hne : file ≠ dest ++ [basename file]) :
    (getFileHash contents ≠ getFileHash (corrupt file contents) →
      runFile corrupt dest fs file =
        ([.statusMsg (.copying (basename file) dest), .completedOp,
          .statusMsg (.checking (basename file)), .completedOp, .completedOp],
         some (writeFile fs (dest ++ [basename file]) (corrupt file contents)))
      ∧ readFile (writeFile fs (dest ++ [basename file]) (corrupt file contents)) file =
          some contents
      ∧ Ev.statusMsg (.deleting file) ∉
          ([.statusMsg (.copying (basename file) dest), .completedOp,
            .statusMsg (.checking (basename file)), .completedOp, .completedOp] : List Ev)
      ∧ runBatch corrupt dest fs (file :: rest) =
          ([.statusMsg (.copying (basename file) dest), .completedOp,
            .statusMsg (.checking (basename file)), .completedOp, .completedOp] ++
            (runBatch corrupt dest
              (writeFile fs (dest ++ [basename file]) (corrupt file contents)) rest).1,
           (runBatch corrupt dest
              (writeFile fs (dest ++ [basename file]) (corrupt file contents)) rest).2))
    ∧ (getFileHash contents = getFileHash (corrupt file contents) →
      runFile corrupt dest fs file =
        ([.statusMsg (.copying (basename file) dest), .completedOp,
          .statusMsg (.checking (basename file)), .completedOp,
          .statusMsg (.deleting file), .completedOp],
         some (removeFile (writeFile fs (dest ++ [basename file])
           (corrupt file contents)) file))
      ∧ readFile (removeFile (writeFile fs (dest ++ [basename file])
          (corrupt file contents)) file) file = none
      ∧ Ev.statusMsg (.deleting file) ∈
          ([.statusMsg (.copying (basename file) dest), .completedOp,
            .statusMsg (.checking (basename file)), .completedOp,
            .statusMsg (.deleting file), .completedOp] : List Ev)) := by
  have hsrc : readFile (writeFile fs (dest ++ [basename file]) (corrupt file contents)) file =
      some contents := by
    rw [readFile_writeFile_ne fs (corrupt file contents) hne, hread]
  have hdst : readFile (writeFile fs (dest ++ [basename file]) (corrupt file contents))
      (dest ++ [basename file]) = some (corrupt file contents) :=
    readFile_writeFile_self fs _ _
  constructor
  · intro hmm
    have hrf : runFile corrupt dest fs file =
        ([.statusMsg (.copying (basename file) dest), .completedOp,
          .statusMsg (.checking (basename file)), .completedOp, .completedOp],
         some (writeFile fs (dest ++ [basename file]) (corrupt file contents))) := by
      unfold runFile
      rw [hread]
      simp only []
      rw [hsrc, hdst]
      simp only []
      rw [if_neg hmm]
    refine ⟨hrf, hsrc, by simp, ?_⟩
    conv_lhs => unfold runBatch
    rw [hrf]
  · intro hsame
    have hrf : runFile corrupt dest fs file =
        ([.statusMsg (.copying (basename file) dest), .completedOp,
          .statusMsg (.checking (basename file)), .completedOp,
          .statusMsg (.deleting file), .completedOp],
         some (removeFile (writeFile fs (dest ++ [basename file])
           (corrupt file contents)) file)) := by
      unfold runFile
      rw [hread]
      simp only []
      rw [hsrc, hdst]
      simp only []
      rw [if_pos hsame]
    exact ⟨hrf, readFile_removeFile_self _ _, by simp⟩

/-- Witness for C3: destination truncated to empty between copy and verify;
the source file still holds its contents after the unit. -/
theorem integrity_mismatch_preserves_source_witness :
    readFile (writeFile ⟨[(["src", "a.jpg"], [1])]⟩
      (["dst"] ++ [basename ["src", "a.jpg"]])
      ((fun _ _ => ([] : List Nat)) ["src", "a.jpg"] [1])) ["src", "a.jpg"] = some [1] :=
  ((integrity_mismatch_preserves_source (fun _ _ => []) ["dst"] ⟨[(["src", "a.jpg"], [1])]⟩
      ["src", "a.jpg"] [] [1] rfl (by decide)).1 (by decide)).2.1

/-! ## File scanner (`PhotoImporter._getFileNames`) -/

/-- Python's `str.lower()` (ASCII case folding). -/
def lowerStr (s : String) : String := ⟨s.data.map Char.toLower⟩

/-- A directory tree: the files directly in a directory, and its named
subdirectories. -/
inductive DTree where
  | node (files : List String) (subs : List (String × DTree))

/-- `os.walk p`: the `(dirpath, filenames)` pairs of the tree rooted at `p`,
top-down, root first. -/
def walk (p : FPath) (t : DTree) : List (FPath × List String) :=
  match t with
  | .node files subs =>
    (p, files) :: subs.attach.flatMap (fun x => walk (p ++ [x.1.1]) x.1.2)
termination_by sizeOf t
decreasing_by
  have h1 := List.sizeOf_lt_of_mem x.2
  rcases x with ⟨⟨nm, t'⟩, hx⟩
  simp only [Prod.mk.sizeOf_spec] at h1
  simp only [DTree.node.sizeOf_spec]
  omega

/-- `DirAt t rel fls`: the directory at relative path `rel` under the tree `t`
lists exactly the files `fls`. -/
inductive DirAt : DTree → List String → List String → Prop where
  | here : ∀ (files : List String) (subs : List (String × DTree)),
      DirAt (.node files subs) [] files
  | child : ∀ (files : List String) (subs : List (String × DTree)) (nm : String)
      (t : DTree) (rel : List String) (fls : List String),
      (nm, t) ∈ subs → DirAt t rel fls → DirAt (.node files subs) (nm :: rel) fls

theorem sizeOf_lt_of_mem_subs (files : List String) {nm : String} {t : DTree}
    {subs : List (String × DTree)} (h : (nm, t) ∈ subs) :
    sizeOf t < sizeOf (DTree.node files subs) := by
  have h1 := List.sizeOf_lt_of_mem h
  simp only [Prod.mk.sizeOf_spec] at h1
  simp only [DTree.node.sizeOf_spec]
  omega

theorem walk_mem_aux (n : Nat) : ∀ (t : DTree), sizeOf t ≤ n → ∀ (p q : FPath)
    (fls : List String),
    ((q, fls) ∈ walk p t) ↔ ∃ rel, q = p ++ rel ∧ DirAt t rel fls := by
  induction n with
  | zero =>
    intro t ht
    rcases t with ⟨files, subs⟩
    simp [DTree.node.sizeOf_spec] at ht
  | succ n ih =>
    intro t ht p q fls
    rcases t with ⟨files, subs⟩
    constructor
    · intro hmem
      rw [walk] at hmem
      rcases List.mem_cons.mp hmem with heq | hbind
      · injection heq with h1 h2
        subst h1
        exact ⟨[], by simp, by rw [h2]; exact DirAt.here files subs⟩
      · rcases List.mem_flatMap.mp hbind with ⟨x, hx, hmem2⟩
        rcases x with ⟨⟨nm, t'⟩, hsub⟩
        have hlt : sizeOf t' ≤ n := by
          have := sizeOf_lt_of_mem_subs files hsub
          omega
        rcases (ih t' hlt (p ++ [nm]) q fls).mp hmem2 with ⟨rel, hq, hd⟩
        exact ⟨nm :: rel, by simp [hq], DirAt.child files subs nm t' rel fls hsub hd⟩
    · rintro ⟨rel, hq, hd⟩
      cases hd with
      | here =>
        subst hq
        rw [walk]
        simp
      | child _ _ nm t' rel' fls' hsub hd' =>
        have hlt : sizeOf t' ≤ n := by
          have := sizeOf_lt_of_mem_subs files hsub
          omega
        have hrec : (q, fls) ∈ walk (p ++ [nm]) t' := by
          rw [ih t' hlt (p ++ [nm]) q fls]
          exact ⟨rel', by simp [hq], hd'⟩
        rw [walk]
        refine List.mem_cons.mpr (Or.inr (List.mem_flatMap.mpr
          ⟨⟨(nm, t'), hsub⟩, List.mem_attach _ _, hrec⟩))

theorem walk_mem (t : DTree) (p q : FPath) (fls : List String) :
    ((q, fls) ∈ walk p t) ↔ ∃ rel, q = p ++ rel ∧ DirAt t rel fls :=
  walk_mem_aux (sizeOf t) t (Nat.le_refl _) p q fls

/-- `PhotoImporter._getFileNames`: every file under `{sdCardRoot}/DCIM`
(recursively) whose name contains one of the extensions, case-insensitively;
matching is substring containment of the lowered extension in the lowered file
name. -/
def getFileNames (sdCardRoot : FPath) (tree : DTree) (extensions : List String) : List FPath :=
  (walk (sdCardRoot ++ [cameraFolderName]) tree).flatMap (fun res =>
    (res.2.filter (fun file => extensions.any (fun ext =>
      strSub (lowerStr ext) (lowerStr file)))).map (fun file => res.1 ++ [file]))

theorem getFileNames_mem_iff (sdCardRoot : FPath) (tree : DTree)
    (extensions : List String) (x : FPath) :
    x ∈ getFileNames sdCardRoot tree extensions ↔
      ∃ rel fls file, DirAt tree rel fls ∧ file ∈ fls ∧
        (∃ ext ∈ extensions, strSub (lowerStr ext) (lowerStr file) = true) ∧
        x = ((sdCardRoot ++ [cameraFolderName]) ++ rel) ++ [file] := by
  unfold getFileNames
  rw [List.mem_flatMap]
  constructor
  · rintro ⟨res, hres, hx⟩
    rcases res with ⟨q, fls⟩
    rcases (walk_mem tree _ q fls).mp hres with ⟨rel, hq, hdir⟩
    rcases List.mem_map.mp hx with ⟨file, hfile, hxeq⟩
    have hf := List.mem_filter.mp hfile
    rcases List.any_eq_true.mp hf.2 with ⟨ext, hext, hsub⟩
    exact ⟨rel, fls, file, hdir, hf.1, ⟨ext, hext, hsub⟩, by rw [← hxeq, hq]⟩
  · rintro ⟨rel, fls, file, hdir, hfile, ⟨ext, hext, hsub⟩, hxeq⟩
    refine ⟨((sdCardRoot ++ [cameraFolderName]) ++ rel, fls), ?_, ?_⟩
    · exact (walk_mem tree _ _ fls).mpr ⟨rel, rfl, hdir⟩
    · exact List.mem_map.mpr ⟨file,
        List.mem_filter.mpr ⟨hfile, List.any_eq_true.mpr ⟨ext, hext, hsub⟩⟩, hxeq.symm⟩

theorem scanner_example_aux :
    ["X", "DCIM", "photo.jpgbackup"] ∈
      getFileNames ["X"] (DTree.node ["photo.jpgbackup"] []) [".jpg"] := by
  rw [getFileNames_mem_iff]
  refine ⟨[], ["photo.jpgbackup"], "photo.jpgbackup",
    DirAt.here ["photo.jpgbackup"] [], by simp, ⟨".jpg", by simp, by decide⟩, by decide⟩

/-- C7: the scanner returns exactly the files under the camera-media folder
(recursively, including the root itself) whose name contains one of the
extension strings case-insensitively; matching is substring containment, not
suffix-anchored: `photo.jpgbackup` is collected when scanning for `.jpg`. -/
theorem scanner_membership_spec (sdCardRoot : FPath) (tree : DTree)
    (extensions : List String) :
    (∀ x, x ∈ getFileNames sdCardRoot tree extensions ↔
      ∃ rel fls file, DirAt tree rel fls ∧ file ∈ fls ∧
        (∃ ext ∈ extensions, strSub (lowerStr ext) (lowerStr file) = true) ∧
        x = ((sdCardRoot ++ [cameraFolderName]) ++ rel) ++ [file])
    ∧ ["X", "DCIM", "photo.jpgbackup"] ∈
        getFileNames ["X"] (DTree.node ["photo.jpgbackup"] []) [".jpg"] :=
  ⟨getFileNames_mem_iff sdCardRoot tree extensions, scanner_example_aux⟩
